import Mathlib

/-!
Verification of the Redis caching subsystem of the movie-database agent
(`cache.py`, plus the TTL wiring of the decorated query methods in
`agent.py`).

The Python values that flow through the cache are modelled by `PyVal`
(JSON-serializable values: None, bool, int, str, list, dict).  The external
libraries that the subsystem calls are modelled concretely:

* `json.dumps` / `json.loads` are modelled by an executable serializer
  `jsonDumps` and a fuelled recursive-descent parser `jsonLoads` over the
  same grammar (objects and arrays printed with the default separators
  `", "` and `": "`); the round-trip law is proved, not assumed.
* the redis client is modelled by an association list of
  (key, raw string, expiry instant) entries together with an explicit
  current-time parameter: `GET` returns a live entry's raw string, `SETEX`
  writes an entry whose expiry is `now + ttl`, `DEL` removes a key,
  `KEYS pattern` enumerates live keys matching a glob pattern.
* `hashlib.md5(...).hexdigest()` is modelled by a concrete deterministic
  128-bit digest rendered as 32 lowercase hex characters (`md5Hex`);
  the claims under study use only determinism and the digest format.
-/

/-- Python values storable in the cache: the JSON-serializable fragment.
`null` plays the role of Python `None`, which is also the absent-value
sentinel returned by `RedisCache.get`. -/

inductive PyVal where
  | null
  | bool (b : Bool)
  | int (n : Int)
  | str (s : String)
  | list (xs : List PyVal)
  | dict (kvs : List (String × PyVal))

/-- Test for the Python `None` sentinel (`is None` / `is not None`). -/

def PyVal.isNull : PyVal → Bool
  | .null => true
  | _ => false

/-- Left brace character, kept out of string literals. -/

def lbrace : Char := Char.ofNat 123

/-- Right brace character, kept out of string literals. -/

def rbrace : Char := Char.ofNat 125

/-- Single-quote character. -/

def squote : Char := Char.ofNat 39

/-- Lowercase hexadecimal digit for a value below 16. -/

def hexDig (n : Nat) : Char :=
  if n < 10 then Char.ofNat (48 + n) else Char.ofNat (87 + n)

/-- Decimal-digit test on characters. -/

def isDigitCh (c : Char) : Bool := 48 ≤ c.toNat && c.toNat ≤ 57

/-- Hexadecimal value of a character, if it is a lowercase hex digit. -/

def hexVal (c : Char) : Option Nat :=
  if 48 ≤ c.toNat ∧ c.toNat ≤ 57 then some (c.toNat - 48)
  else if 97 ≤ c.toNat ∧ c.toNat ≤ 102 then some (c.toNat - 87)
  else none

/-- JSON escaping of one character inside a string literal, as produced by
the serializer: the two mandatory escapes, the common control-character
short forms, and `\u00XX` for the remaining control characters. -/

def escChar (c : Char) : List Char :=
  if c = '"' then ['\\', '"']
  else if c = '\\' then ['\\', '\\']
  else if c = '\n' then ['\\', 'n']
  else if c = '\t' then ['\\', 't']
  else if c = '\r' then ['\\', 'r']
  else if c.toNat < 32 then
    ['\\', 'u', '0', '0', hexDig (c.toNat / 16), hexDig (c.toNat % 16)]
  else [c]

/-- JSON escaping of a whole string body. -/

def escStr (s : List Char) : List Char := (s.map escChar).flatten

/-- Decimal digit character for a value below 10. -/

def digCh (n : Nat) : Char := Char.ofNat (48 + n)

/-- Fuelled accumulator loop producing decimal digits, most significant
first; `fuel > n` always suffices. -/

def natDigsGo : Nat → Nat → List Char → List Char
  | 0, _, acc => acc
  | fuel + 1, n, acc =>
    if n < 10 then digCh n :: acc
    else natDigsGo fuel (n / 10) (digCh (n % 10) :: acc)

/-- Decimal digits of a natural number, most significant first. -/

def natDigs (n : Nat) : List Char := natDigsGo (n + 1) n []

/-- Decimal rendering of an integer (Python `str` of an `int`). -/

def intChars (i : Int) : List Char :=
  if i < 0 then '-' :: natDigs (-i).toNat else natDigs i.toNat

/-- Characters of the `null` literal. -/
def nullChars : List Char := ['n', 'u', 'l', 'l']

/-- Characters of the `true` literal. -/
def trueChars : List Char := ['t', 'r', 'u', 'e']

/-- Characters of the `false` literal. -/
def falseChars : List Char := ['f', 'a', 'l', 's', 'e']

mutual

/-- Model of `json.dumps` (producing a character list): default separators,
no indentation, strings escaped by `escChar`. -/
def dumpVal : PyVal → List Char
  | .null => nullChars
  | .bool true => trueChars
  | .bool false => falseChars
  | .int i => intChars i
  | .str s => '"' :: (escStr s.data ++ ['"'])
  | .list xs => '[' :: dumpElems xs
  | .dict kvs => lbrace :: dumpMembers kvs

/-- Serialize array elements followed by the closing bracket. -/
def dumpElems : List PyVal → List Char
  | [] => [']']
  | [x] => dumpVal x ++ [']']
  | x :: y :: r => dumpVal x ++ ',' :: ' ' :: dumpElems (y :: r)

/-- Serialize object members followed by the closing brace. -/
def dumpMembers : List (String × PyVal) → List Char
  | [] => [rbrace]
  | [(k, v)] => '"' :: (escStr k.data ++ '"' :: ':' :: ' ' :: (dumpVal v ++ [rbrace]))
  | (k, v) :: e :: r =>
      '"' :: (escStr k.data ++ '"' :: ':' :: ' ' :: (dumpVal v ++ ',' :: ' ' :: dumpMembers (e :: r)))

end

/-- Model of `json.dumps(value, default=str)` as used by `RedisCache.set`. -/

def jsonDumps (v : PyVal) : String := ⟨dumpVal v⟩

/-- Parse four hex digits into the character they encode. -/

def parseHex4 : List Char → Option (Char × List Char)
  | a :: b :: c :: d :: rest =>
    match hexVal a, hexVal b, hexVal c, hexVal d with
    | some x₁, some x₂, some x₃, some x₄ =>
      some (Char.ofNat (((x₁ * 16 + x₂) * 16 + x₃) * 16 + x₄), rest)
    | _, _, _, _ => none
  | _ => none

/-- Decode one escape sequence (the part after the backslash). -/

def parseEsc : List Char → Option (Char × List Char)
  | [] => none
  | e :: rest =>
    if e = '"' then some ('"', rest)
    else if e = '\\' then some ('\\', rest)
    else if e = 'n' then some ('\n', rest)
    else if e = 't' then some ('\t', rest)
    else if e = 'r' then some ('\r', rest)
    else if e = 'u' then parseHex4 rest
    else none

/-- Fuelled loop parsing the body of a JSON string literal up to the
closing quote, undoing `escChar`; one unit of fuel per decoded character. -/

def parseStrGo : Nat → List Char → Option (List Char × List Char)
  | 0, _ => none
  | _ + 1, [] => none
  | fuel + 1, c :: rest =>
    if c = '"' then some ([], rest)
    else if c = '\\' then
      (parseEsc rest).bind fun p => (parseStrGo fuel p.2).map fun q => (p.1 :: q.1, q.2)
    else (parseStrGo fuel rest).map fun q => (c :: q.1, q.2)

/-- Parse the body of a JSON string literal up to the closing quote. -/

def parseStrBody (s : List Char) : Option (List Char × List Char) :=
  parseStrGo (s.length + 1) s

/-- Consume a maximal run of decimal digits, accumulating their value. -/

def parseNatLoop : Nat → List Char → Nat × List Char
  | acc, [] => (acc, [])
  | acc, c :: rest =>
    if isDigitCh c then parseNatLoop (acc * 10 + (c.toNat - 48)) rest
    else (acc, c :: rest)

/-- Parse at least one decimal digit. -/

def parseDigits : List Char → Option (Nat × List Char)
  | [] => none
  | c :: rest =>
    if isDigitCh c then some (parseNatLoop (c.toNat - 48) rest) else none

/-- Parse a JSON integer (optional minus sign, then digits). -/

def parseIntFrom (s : List Char) : Option (Int × List Char) :=
  if s.head? = some '-' then (parseDigits s.tail).map fun p => (-(p.1 : Int), p.2)
  else (parseDigits s).map fun p => ((p.1 : Int), p.2)

/-- Match an expected literal character sequence. -/

def stripChars : List Char → List Char → Option (List Char)
  | [], s => some s
  | c :: cs, d :: ds => if d = c then stripChars cs ds else none
  | _ :: _, [] => none

mutual

/-- Fuelled model of `json.loads` dispatch: parse one JSON value, returning
it with the unconsumed suffix. -/
def parseVal : Nat → List Char → Option (PyVal × List Char)
  | 0, _ => none
  | _ + 1, [] => none
  | fuel + 1, c :: rest =>
    if c = 'n' then (stripChars ['u', 'l', 'l'] rest).map fun r => (.null, r)
    else if c = 't' then (stripChars ['r', 'u', 'e'] rest).map fun r => (.bool true, r)
    else if c = 'f' then (stripChars ['a', 'l', 's', 'e'] rest).map fun r => (.bool false, r)
    else if c = '"' then (parseStrBody rest).map fun p => (.str ⟨p.1⟩, p.2)
    else if c = '[' then (parseElems fuel rest).map fun p => (.list p.1, p.2)
    else if c = lbrace then (parseMembers fuel rest).map fun p => (.dict p.1, p.2)
    else (parseIntFrom (c :: rest)).map fun p => (.int p.1, p.2)

/-- Parse array elements up to the closing bracket. -/
def parseElems : Nat → List Char → Option (List PyVal × List Char)
  | 0, _ => none
  | fuel + 1, s =>
    if s.head? = some ']' then some ([], s.tail)
    else
      (parseVal fuel s).bind fun p =>
        match p.2 with
        | ']' :: rest => some ([p.1], rest)
        | ',' :: ' ' :: rest => (parseElems fuel rest).map fun q => (p.1 :: q.1, q.2)
        | _ => none

/-- Parse object members up to the closing brace. -/
def parseMembers : Nat → List Char → Option (List (String × PyVal) × List Char)
  | 0, _ => none
  | fuel + 1, s =>
    if s.head? = some rbrace then some ([], s.tail)
    else if s.head? = some '"' then
      (parseStrBody s.tail).bind fun kp =>
        match kp.2 with
        | ':' :: ' ' :: r₁ =>
          (parseVal fuel r₁).bind fun vp =>
            if vp.2.head? = some rbrace then some ([(⟨kp.1⟩, vp.1)], vp.2.tail)
            else
              match vp.2 with
              | ',' :: ' ' :: rest =>
                (parseMembers fuel rest).map fun q => ((⟨kp.1⟩, vp.1) :: q.1, q.2)
              | _ => none
        | _ => none
    else none

end

/-- Model of `json.loads`: parse the whole input as one JSON value; any
trailing data or malformed input is a failure (raises in Python, `none`
here). -/

def jsonLoads (s : String) : Option PyVal :=
  match parseVal (s.data.length + 1) s.data with
  | some (v, []) => some v
  | _ => none

mutual

/-- Parser fuel needed for one value. -/
def psize : PyVal → Nat
  | .list xs => psizeL xs + 1
  | .dict kvs => psizeD kvs + 1
  | _ => 1

/-- Parser fuel needed for an element list. -/
def psizeL : List PyVal → Nat
  | [] => 1
  | x :: r => max (psize x) (psizeL r) + 1

/-- Parser fuel needed for a member list. -/
def psizeD : List (String × PyVal) → Nat
  | [] => 1
  | (_, v) :: r => max (psize v) (psizeD r) + 1

end

/-- Inputs that do not begin with a decimal digit; a serialized integer
followed by such a suffix parses back exactly. -/

def noDigitHead : List Char → Bool
  | [] => true
  | c :: _ => !isDigitCh c

/-- Decimal value of a digit string. -/

def digitsToNat (ds : List Char) : Nat :=
  ds.foldl (fun a c => a * 10 + (c.toNat - 48)) 0

mutual

/-- Model of Python repr for cacheable values, used only inside the
key-derivation input string (quote escaping inside string reprs is
elided; the key claims use only determinism and the key format). -/
def pyRepr : PyVal → String
  | .null => "None"
  | .bool true => "True"
  | .bool false => "False"
  | .int i => ⟨intChars i⟩
  | .str s => String.singleton squote ++ s ++ String.singleton squote
  | .list xs => "[" ++ pyReprList xs ++ "]"
  | .dict kvs => String.singleton lbrace ++ pyReprDict kvs ++ String.singleton rbrace

/-- Comma-joined reprs of a sequence. -/
def pyReprList : List PyVal → String
  | [] => ""
  | [x] => pyRepr x
  | x :: y :: r => pyRepr x ++ ", " ++ pyReprList (y :: r)

/-- Comma-joined `key: value` reprs of a dict body. -/
def pyReprDict : List (String × PyVal) → String
  | [] => ""
  | [(k, v)] =>
    String.singleton squote ++ k ++ String.singleton squote ++ ": " ++ pyRepr v
  | (k, v) :: e :: r =>
    String.singleton squote ++ k ++ String.singleton squote ++ ": " ++ pyRepr v
      ++ ", " ++ pyReprDict (e :: r)

end

/-- Python str() of the positional-argument tuple (singleton tuples carry
a trailing comma). -/

def pyReprTuple : List PyVal → String
  | [] => "()"
  | [x] => "(" ++ pyRepr x ++ ",)"
  | xs => "(" ++ pyReprList xs ++ ")"

/-- Python repr of one `(key, value)` item pair. -/

def pyReprPair (k : String) (v : PyVal) : String :=
  "(" ++ String.singleton squote ++ k ++ String.singleton squote ++ ", " ++ pyRepr v ++ ")"

/-- Comma-joined item pairs. -/

def pyReprPairsSeq : List (String × PyVal) → String
  | [] => ""
  | [(k, v)] => pyReprPair k v
  | (k, v) :: e :: r => pyReprPair k v ++ ", " ++ pyReprPairsSeq (e :: r)

/-- Python str() of a list of item pairs, as produced for
`str(sorted(kwargs.items()))`. -/

def pyReprItems (kvs : List (String × PyVal)) : String :=
  "[" ++ pyReprPairsSeq kvs ++ "]"

/-- Ordering used by `sorted(kwargs.items())`: Python compares the item
tuples, and since the keys of a kwargs dict are distinct the comparison
never reaches the values, so ordering by key is faithful. -/

def kwargsLe (a b : String × PyVal) : Prop := a.1 ≤ b.1

instance : DecidableRel kwargsLe := fun a b => inferInstanceAs (Decidable (a.1 ≤ b.1))

instance : IsTotal (String × PyVal) kwargsLe := ⟨fun a b => le_total a.1 b.1⟩

instance : IsTrans (String × PyVal) kwargsLe := ⟨fun _ _ _ h₁ h₂ => le_trans h₁ h₂⟩

/-- Model of `sorted(kwargs.items())` (a stable sort by item). -/

def sortItems (kvs : List (String × PyVal)) : List (String × PyVal) :=
  List.insertionSort kwargsLe kvs

/-- Modelled stand-in for `hashlib.md5` (an external library): a concrete
deterministic 128-bit digest of the input characters. -/

def digest128 (s : String) : Nat :=
  s.data.foldl (fun h c => (h * 1000003 + c.toNat + 1) % (2 ^ 128)) 5381

/-- Hexadecimal rendering of the 128-bit digest as exactly 32 lowercase
hex characters (the format of `hexdigest()`). -/

def md5Hex (s : String) : String :=
  ⟨(List.range 32).map fun i => hexDig (digest128 s / 16 ^ (31 - i) % 16)⟩

/-- Model of `RedisCache._generate_key`: hash of
`f"{prefix}:{str(args)}:{str(sorted(kwargs.items()))}"`, namespaced as
`movie_cache:<prefix>:<digest>`. -/

def generateKey (pref : String) (args : List PyVal)
    (kwargs : List (String × PyVal)) : String :=
  let key_data := pref ++ ":" ++ pyReprTuple args ++ ":" ++ pyReprItems (sortItems kwargs)
  "movie_cache:" ++ pref ++ ":" ++ md5Hex key_data

/-- State of the modelled store: the enabled flag fixed at construction
(false when the connection probe failed) and the remote key space as
(key, raw serialized string, absolute expiry instant) entries. -/

structure RedisState where
  enabled : Bool
  store : List (String × String × Nat)

/-- Raw `GET`: the raw string under a key when the entry is live at `now`
(redis treats an entry whose TTL has elapsed as absent). -/

def rawGet (entries : List (String × String × Nat)) (now : Nat) (key : String) :
    Option String :=
  match entries.find? (fun e => e.1 == key) with
  | some e => if now < e.2.2 then some e.2.1 else none
  | none => none

/-- Raw `SETEX`: store a raw string under a key with an absolute expiry,
replacing any previous entry for that key. -/

def rawSetex (entries : List (String × String × Nat)) (key raw : String) (exp : Nat) :
    List (String × String × Nat) :=
  (key, raw, exp) :: entries.filter (fun e => !(e.1 == key))

/-- Raw `DEL` of one key. -/

def rawDel (entries : List (String × String × Nat)) (key : String) :
    List (String × String × Nat) :=
  entries.filter (fun e => !(e.1 == key))

/-- Redis glob matching (`*` and `?` wildcards, literals otherwise). -/

def globMatch : List Char → List Char → Bool
  | [], [] => true
  | [], _ :: _ => false
  | '*' :: p, [] => globMatch p []
  | '*' :: p, d :: s => globMatch p (d :: s) || globMatch ('*' :: p) s
  | '?' :: p, _ :: s => globMatch p s
  | '?' :: _, [] => false
  | c :: p, d :: s => c == d && globMatch p s
  | _ :: _, [] => false

/-- Raw `KEYS pattern`: the live keys matching a glob pattern. -/

def liveKeys (entries : List (String × String × Nat)) (now : Nat) (pattern : String) :
    List String :=
  (entries.filter fun e => globMatch pattern.data e.1.data && decide (now < e.2.2)).map
    fun e => e.1

/-- Model of `RedisCache.get`: when disabled or the key is absent, expired,
empty or undecodable, the Python `None` sentinel (`PyVal.null`) is
returned; a live decodable entry is deserialized and returned. -/

def cacheGet (st : RedisState) (now : Nat) (key : String) : PyVal :=
  if !st.enabled then .null
  else
    match rawGet st.store now key with
    | some raw => if raw ≠ "" then (jsonLoads raw).getD .null else .null
    | none => .null

/-- Model of `RedisCache.set`: serialize the value and store it with
expiry `now + ttl`; returns the success flag with the updated state. -/

def cacheSet (st : RedisState) (now : Nat) (key : String) (value : PyVal) (ttl : Nat) :
    Bool × RedisState :=
  if !st.enabled then (false, st)
  else (true, ⟨st.enabled, rawSetex st.store key (jsonDumps value) (now + ttl)⟩)

/-- Model of `RedisCache.delete`: returns True whenever the store is
enabled, whether or not the key was present. -/

def cacheDelete (st : RedisState) (key : String) : Bool × RedisState :=
  if !st.enabled then (false, st)
  else (true, ⟨st.enabled, rawDel st.store key⟩)

/-- Model of `RedisCache.clear_pattern`: enumerate live keys matching the
pattern, delete them as a batch, and return the count; 0 when disabled or
when nothing matches. -/

def clearPattern (st : RedisState) (now : Nat) (pattern : String) : Nat × RedisState :=
  if !st.enabled then (0, st)
  else
    let ks := liveKeys st.store now pattern
    if ks.isEmpty then (0, st)
    else (ks.length, ⟨st.enabled, st.store.filter fun e => !(ks.contains e.1)⟩)

/-- Backend counters reported by the external `client.info()` call. -/

structure RedisInfo where
  keyspace_hits : Nat
  keyspace_misses : Nat
  used_memory_human : String

/-- Result of `RedisCache.get_stats` (the Python dict's fields). -/

inductive CacheStats where
  | disabled
  | connected (keys_count : Nat) (used_memory : String) (hits misses : Nat) (hit_rate : ℚ)

/-- The reported hit rate (0 for a disabled report, which carries none). -/

def CacheStats.hitRate : CacheStats → ℚ
  | .disabled => 0
  | .connected _ _ _ _ r => r

/-- The reported enabled flag. -/

def CacheStats.isEnabled : CacheStats → Bool
  | .disabled => false
  | .connected _ _ _ _ _ => true

/-- Two-decimal rounding, modelling Python `round(x, 2)`. -/

def round2 (q : ℚ) : ℚ := (round (q * 100) : ℤ) / 100

/-- Model of `RedisCache.get_stats` in the error-free case: live key count
under the namespace pattern, backend memory string, backend-wide hit and
miss counters, and the derived hit rate. -/

def getStats (st : RedisState) (now : Nat) (info : RedisInfo) : CacheStats :=
  if !st.enabled then .disabled
  else
    .connected (liveKeys st.store now "movie_cache:*").length info.used_memory_human
      info.keyspace_hits info.keyspace_misses
      (round2 ((info.keyspace_hits : ℚ)
        / ((max (info.keyspace_hits + info.keyspace_misses) 1 : Nat) : ℚ) * 100))

/-- Result of one call through the memoizing wrapper: the returned value,
the store state afterwards, and whether the wrapped operation ran. -/

structure CallResult where
  value : PyVal
  state : RedisState
  executed : Bool

/-- Model of the `cache_result(ttl, key_prefix)` decorator's wrapper:
bypass when no cache is attached or it is disabled; otherwise return a
present (non-None) cached value without executing, else execute, store
the result under the derived key with the given TTL, and return it. -/

def cacheWrap (ttl : Nat) (keyPref : String)
    (func : List PyVal → List (String × PyVal) → PyVal)
    (hasCache : Bool) (st : RedisState) (now : Nat)
    (args : List PyVal) (kwargs : List (String × PyVal)) : CallResult :=
  if !hasCache || !st.enabled then ⟨func args kwargs, st, true⟩
  else
    let key := generateKey keyPref args kwargs
    let cached := cacheGet st now key
    if !cached.isNull then ⟨cached, st, false⟩
    else
      ⟨func args kwargs, (cacheSet st now key (func args kwargs) ttl).2, true⟩

/-- Decorated `MovieDatabaseTools.search_movies_by_title` (ttl 1800,
prefix `search_title`); the MongoDB query body is the abstract `impl`. -/

def search_movies_by_title (impl : List PyVal → List (String × PyVal) → PyVal)
    (st : RedisState) (now : Nat) (title : String) : CallResult :=
  cacheWrap 1800 "search_title" impl true st now [.str title] []

/-- Decorated `get_movies_by_director` (ttl 3600, prefix `director`). -/

def get_movies_by_director (impl : List PyVal → List (String × PyVal) → PyVal)
    (st : RedisState) (now : Nat) (director : String) : CallResult :=
  cacheWrap 3600 "director" impl true st now [.str director] []

/-- Decorated `get_top_rated_movies` (ttl 3600, prefix `top_rated`). -/

def get_top_rated_movies (impl : List PyVal → List (String × PyVal) → PyVal)
    (st : RedisState) (now : Nat) (limit : Int) : CallResult :=
  cacheWrap 3600 "top_rated" impl true st now [.int limit] []

/-- Decorated `get_movies_by_genre` (ttl 3600, prefix `genre`). -/

def get_movies_by_genre (impl : List PyVal → List (String × PyVal) → PyVal)
    (st : RedisState) (now : Nat) (genre : String) : CallResult :=
  cacheWrap 3600 "genre" impl true st now [.str genre] []

/-- Decorated `get_movies_with_actor` (ttl 3600, prefix `actor`). -/

def get_movies_with_actor (impl : List PyVal → List (String × PyVal) → PyVal)
    (st : RedisState) (now : Nat) (actor : String) : CallResult :=
  cacheWrap 3600 "actor" impl true st now [.str actor] []

/-- Undecorated `get_movies_by_year_range`: the query body runs directly on
every call and the store is untouched. -/

def get_movies_by_year_range (impl : List PyVal → List (String × PyVal) → PyVal)
    (st : RedisState) (_now : Nat) (start_year end_year : Int) : CallResult :=
  ⟨impl [.int start_year, .int end_year] [], st, true⟩

/-- Undecorated `get_movie_statistics`: the query body runs directly on
every call and the store is untouched. -/

def get_movie_statistics (impl : List PyVal → List (String × PyVal) → PyVal)
    (st : RedisState) (_now : Nat) (query : String) : CallResult :=
  ⟨impl [.str query] [], st, true⟩

/-- Lowercase hexadecimal character test. -/

def isHexCh (c : Char) : Bool :=
  (48 ≤ c.toNat && c.toNat ≤ 57) || (97 ≤ c.toNat && c.toNat ≤ 102)

theorem charToNat_ofNat (n : Nat) (h : n < 55296) : (Char.ofNat n).toNat = n := by
  have hv : n.isValidChar := Or.inl (by omega)
  simp [Char.ofNat, hv, Char.ofNatAux, Char.toNat, UInt32.toNat, UInt32.ofNat']

theorem char_eq_of_toNat_eq {a b : Char} (h : a.toNat = b.toNat) : a = b := by
  have ha := Char.ofNat_toNat a
  rw [h, Char.ofNat_toNat b] at ha
  exact ha.symm

theorem digCh_toNat {n : Nat} (h : n < 10) : (digCh n).toNat = 48 + n := by
  unfold digCh
  exact charToNat_ofNat _ (by omega)

theorem isDigitCh_digCh {n : Nat} (h : n < 10) : isDigitCh (digCh n) = true := by
  simp [isDigitCh, digCh_toNat h]
  omega

theorem digitsToNat_append_digit (ds : List Char) (d : Char) :
    digitsToNat (ds ++ [d]) = digitsToNat ds * 10 + (d.toNat - 48) := by
  simp [digitsToNat, List.foldl_append]

theorem natDigsGo_spec :
    ∀ (fuel n : Nat) (acc : List Char), n < fuel →
      ∃ digs, natDigsGo fuel n acc = digs ++ acc ∧ digs ≠ [] ∧
        (∀ c ∈ digs, isDigitCh c = true) ∧ digitsToNat digs = n := by
  intro fuel
  induction fuel with
  | zero => intro n acc h; omega
  | succ f ih =>
    intro n acc h
    by_cases hn : n < 10
    · refine ⟨[digCh n], by simp [natDigsGo, hn], by simp, ?_, ?_⟩
      · intro c hc
        simp at hc
        subst hc
        exact isDigitCh_digCh hn
      · simp [digitsToNat, digCh_toNat hn]
    · have hlt : n / 10 < f := by omega
      obtain ⟨digs, heq, hne, hdig, hval⟩ := ih (n / 10) (digCh (n % 10) :: acc) hlt
      refine ⟨digs ++ [digCh (n % 10)], ?_, by simp, ?_, ?_⟩
      · simp [natDigsGo, hn, heq]
      · intro c hc
        rcases List.mem_append.mp hc with h₁ | h₂
        · exact hdig c h₁
        · simp at h₂
          subst h₂
          exact isDigitCh_digCh (by omega)
      · rw [digitsToNat_append_digit, hval, digCh_toNat (by omega)]
        omega

theorem natDigs_spec (n : Nat) :
    ∃ digs, natDigs n = digs ∧ digs ≠ [] ∧
      (∀ c ∈ digs, isDigitCh c = true) ∧ digitsToNat digs = n := by
  obtain ⟨digs, heq, hne, hdig, hval⟩ := natDigsGo_spec (n + 1) n [] (by omega)
  exact ⟨digs, by simpa [natDigs] using heq, hne, hdig, hval⟩

theorem parseNatLoop_spec :
    ∀ (ds : List Char) (acc : Nat) (rest : List Char),
      (∀ c ∈ ds, isDigitCh c = true) → noDigitHead rest = true →
      parseNatLoop acc (ds ++ rest) =
        (ds.foldl (fun a c => a * 10 + (c.toNat - 48)) acc, rest) := by
  intro ds
  induction ds with
  | nil =>
    intro acc rest _ hrest
    cases rest with
    | nil => simp [parseNatLoop]
    | cons c r =>
      simp [noDigitHead] at hrest
      simp [parseNatLoop, hrest]
  | cons d ds ih =>
    intro acc rest hdig hrest
    have hd : isDigitCh d = true := hdig d (by simp)
    simp only [List.cons_append, parseNatLoop, hd, if_pos]
    exact ih _ rest (fun c hc => hdig c (by simp [hc])) hrest

theorem parseDigits_natDigs (n : Nat) (rest : List Char) (hrest : noDigitHead rest = true) :
    parseDigits (natDigs n ++ rest) = some (n, rest) := by
  obtain ⟨ds, heq, hne, hdig, hval⟩ := natDigs_spec n
  rw [heq]
  cases ds with
  | nil => exact absurd rfl hne
  | cons d ds =>
    have hd : isDigitCh d = true := hdig d (by simp)
    simp only [List.cons_append, parseDigits, hd, if_pos]
    rw [parseNatLoop_spec ds (d.toNat - 48) rest (fun c hc => hdig c (by simp [hc])) hrest]
    have : ds.foldl (fun a c => a * 10 + (c.toNat - 48)) (d.toNat - 48) = n := by
      have h0 : d.toNat - 48 = 0 * 10 + (d.toNat - 48) := by omega
      rw [h0]
      exact hval
    rw [this]

theorem hexVal_hexDig : ∀ k < 16, hexVal (hexDig k) = some k := by decide

theorem escStr_cons (c : Char) (cs : List Char) :
    escStr (c :: cs) = escChar c ++ escStr cs := by
  simp [escStr]

theorem escChar_length_pos (c : Char) : 1 ≤ (escChar c).length := by
  unfold escChar
  split_ifs <;> simp

theorem escStr_length_ge (s : List Char) : s.length ≤ (escStr s).length := by
  induction s with
  | nil => simp [escStr]
  | cons c cs ih =>
    have h := escChar_length_pos c
    rw [escStr_cons, List.length_append, List.length_cons]
    omega

theorem parseStrGo_escStr :
    ∀ (s : List Char) (fuel : Nat), s.length < fuel →
      ∀ rest : List Char, parseStrGo fuel (escStr s ++ '"' :: rest) = some (s, rest) := by
  intro s
  induction s with
  | nil =>
    intro fuel hf rest
    obtain ⟨f, rfl⟩ : ∃ f, fuel = f + 1 := ⟨fuel - 1, by omega⟩
    simp [escStr, parseStrGo]
  | cons c cs ih =>
    intro fuel hf rest
    obtain ⟨f, rfl⟩ : ∃ f, fuel = f + 1 := ⟨fuel - 1, by omega⟩
    have hcs : cs.length < f := by
      simp only [List.length_cons] at hf
      omega
    rw [escStr_cons]
    unfold escChar
    split_ifs with h1 h2 h3 h4 h5 h6
    · subst h1
      simp [parseStrGo, parseEsc, ih f hcs rest]
    · subst h2
      simp [parseStrGo, parseEsc, ih f hcs rest]
    · subst h3
      simp [parseStrGo, parseEsc, ih f hcs rest]
    · subst h4
      simp [parseStrGo, parseEsc, ih f hcs rest]
    · subst h5
      simp [parseStrGo, parseEsc, ih f hcs rest]
    · have h0 : hexVal '0' = some 0 := rfl
      have hhi : hexVal (hexDig (c.toNat / 16)) = some (c.toNat / 16) :=
        hexVal_hexDig _ (by omega)
      have hlo : hexVal (hexDig (c.toNat % 16)) = some (c.toNat % 16) :=
        hexVal_hexDig _ (by omega)
      simp [parseStrGo, parseEsc, parseHex4, h0, hhi, hlo, ih f hcs rest]
      have harith : c.toNat / 16 * 16 + c.toNat % 16 = c.toNat := by omega
      simp [harith, Char.ofNat_toNat]
    · simp [parseStrGo, h1, h2, ih f hcs rest]

theorem parseStrBody_escStr (s rest : List Char) :
    parseStrBody (escStr s ++ '"' :: rest) = some (s, rest) := by
  unfold parseStrBody
  apply parseStrGo_escStr
  have h := escStr_length_ge s
  simp only [List.length_append, List.length_cons]
  omega

theorem intChars_ne_nil (i : Int) : intChars i ≠ [] := by
  unfold intChars
  by_cases h : i < 0
  · simp [h]
  · simp only [h, if_false]
    obtain ⟨ds, heq, hne, _, _⟩ := natDigs_spec i.toNat
    rw [heq]
    exact hne

theorem parseIntFrom_intChars (i : Int) (rest : List Char)
    (hrest : noDigitHead rest = true) :
    parseIntFrom (intChars i ++ rest) = some (i, rest) := by
  unfold intChars
  by_cases h : i < 0
  · simp only [h, if_true, List.cons_append]
    have hh : (('-' :: (natDigs (-i).toNat ++ rest)).head? = some '-') := rfl
    rw [parseIntFrom, hh]
    simp only [List.tail_cons, if_pos rfl]
    rw [parseDigits_natDigs _ rest hrest]
    simp
    omega
  · obtain ⟨ds, heq, hne, hdig, hval⟩ := natDigs_spec i.toNat
    simp only [h, if_false]
    have hhead : ∃ d t, natDigs i.toNat = d :: t ∧ isDigitCh d = true := by
      cases hds : ds with
      | nil => rw [hds] at hne; exact absurd rfl hne
      | cons d t =>
        refine ⟨d, t, by rw [heq, hds], ?_⟩
        apply hdig
        rw [hds]
        simp
    obtain ⟨d, t, hdt, hd⟩ := hhead
    rw [hdt]
    have hdne : d ≠ '-' := by
      intro hcontra
      subst hcontra
      simp [isDigitCh] at hd
    have hh : ((d :: t ++ rest).head? = some d) := rfl
    rw [parseIntFrom, hh]
    rw [if_neg (show ¬(some d = some '-') by simp [hdne])]
    rw [← hdt, parseDigits_natDigs _ rest hrest]
    simp only [Option.map_some']
    have : ((i.toNat : Nat) : Int) = i := by omega
    rw [this]

theorem psize_pos (v : PyVal) : 1 ≤ psize v := by
  cases v <;> simp [psize]

theorem psizeL_pos (xs : List PyVal) : 1 ≤ psizeL xs := by
  cases xs <;> simp [psizeL]

theorem psizeD_pos (kvs : List (String × PyVal)) : 1 ≤ psizeD kvs := by
  cases kvs with
  | nil => simp [psizeD]
  | cons e r => obtain ⟨k, v⟩ := e; simp [psizeD]

theorem natDigs_cons (n : Nat) : ∃ d t, natDigs n = d :: t ∧ isDigitCh d = true := by
  obtain ⟨ds, heq, hne, hdig, _⟩ := natDigs_spec n
  cases hds : ds with
  | nil => rw [hds] at hne; exact absurd rfl hne
  | cons d t =>
    refine ⟨d, t, by rw [heq, hds], ?_⟩
    apply hdig
    rw [hds]
    simp

theorem intChars_head (i : Int) :
    ∃ c cs, intChars i = c :: cs ∧ (isDigitCh c = true ∨ c = '-') := by
  unfold intChars
  by_cases h : i < 0
  · exact ⟨'-', natDigs (-i).toNat, by simp [h], Or.inr rfl⟩
  · obtain ⟨d, t, hdt, hd⟩ := natDigs_cons i.toNat
    exact ⟨d, t, by simp [h, hdt], Or.inl hd⟩

theorem parseVal_int_dispatch (f : Nat) (c : Char) (cs : List Char)
    (h : isDigitCh c = true ∨ c = '-') :
    parseVal (f + 1) (c :: cs) = (parseIntFrom (c :: cs)).map fun p => (.int p.1, p.2) := by
  rcases h with hd | hm
  · simp only [isDigitCh, Bool.and_eq_true, decide_eq_true_eq] at hd
    have h1 : c ≠ 'n' := by rintro rfl; revert hd; decide
    have h2 : c ≠ 't' := by rintro rfl; revert hd; decide
    have h3 : c ≠ 'f' := by rintro rfl; revert hd; decide
    have h4 : c ≠ '"' := by rintro rfl; revert hd; decide
    have h5 : c ≠ '[' := by rintro rfl; revert hd; decide
    have h6 : c ≠ lbrace := by rintro rfl; revert hd; decide
    simp [parseVal, h1, h2, h3, h4, h5, h6]
  · subst hm
    simp [parseVal, show ('-' : Char) ≠ lbrace from by decide]

theorem dumpVal_head (v : PyVal) :
    ∃ c cs, dumpVal v = c :: cs ∧ c ≠ ']' := by
  cases v with
  | null => exact ⟨_, _, rfl, by decide⟩
  | bool b => cases b <;> exact ⟨_, _, rfl, by decide⟩
  | int i =>
    obtain ⟨c, cs, hic, hc⟩ := intChars_head i
    refine ⟨c, cs, by simp [dumpVal, hic], ?_⟩
    rcases hc with hd | hm
    · simp only [isDigitCh, Bool.and_eq_true, decide_eq_true_eq] at hd
      rintro rfl
      revert hd
      decide
    · subst hm; decide
  | str s => exact ⟨_, _, rfl, by decide⟩
  | list xs => exact ⟨_, _, rfl, by decide⟩
  | dict kvs => exact ⟨lbrace, _, rfl, by decide⟩

mutual

theorem parseVal_dumpVal (v : PyVal) :
    ∀ (fuel : Nat), psize v ≤ fuel → ∀ (rest : List Char), noDigitHead rest = true →
      parseVal fuel (dumpVal v ++ rest) = some (v, rest) := by
  intro fuel hf rest hrest
  obtain ⟨f, rfl⟩ : ∃ f, fuel = f + 1 := ⟨fuel - 1, by have := psize_pos v; omega⟩
  cases v with
  | null => simp [dumpVal, parseVal, stripChars, nullChars]
  | bool b => cases b <;> simp [dumpVal, parseVal, stripChars, trueChars, falseChars]
  | int i =>
    obtain ⟨c, cs, hic, hc⟩ := intChars_head i
    have hdump : dumpVal (.int i) = intChars i := by simp [dumpVal]
    rw [hdump, hic, List.cons_append, parseVal_int_dispatch f c (cs ++ rest) hc,
      ← List.cons_append, ← hic, parseIntFrom_intChars i rest hrest]
    rfl
  | str s =>
    have h := parseStrBody_escStr s.data rest
    simp [dumpVal, parseVal, h]
  | list xs =>
    have hx : psizeL xs ≤ f := by
      simp only [psize] at hf
      omega
    have h := parseElems_dumpElems xs f hx rest
    simp [dumpVal, parseVal, h]
  | dict kvs =>
    have hk : psizeD kvs ≤ f := by
      simp only [psize] at hf
      omega
    have h := parseMembers_dumpMembers kvs f hk rest
    simp [dumpVal, parseVal, h,
      show lbrace ≠ 'n' from by decide, show lbrace ≠ 't' from by decide,
      show lbrace ≠ 'f' from by decide, show lbrace ≠ '"' from by decide,
      show lbrace ≠ '[' from by decide]

theorem parseElems_dumpElems (xs : List PyVal) :
    ∀ (fuel : Nat), psizeL xs ≤ fuel → ∀ (rest : List Char),
      parseElems fuel (dumpElems xs ++ rest) = some (xs, rest) := by
  intro fuel hf rest
  obtain ⟨f, rfl⟩ : ∃ f, fuel = f + 1 := ⟨fuel - 1, by have := psizeL_pos xs; omega⟩
  cases xs with
  | nil => simp [dumpElems, parseElems]
  | cons x r =>
    have hx : psize x ≤ f := by
      simp only [psizeL] at hf
      omega
    obtain ⟨c, cs, hdx, hcne⟩ := dumpVal_head x
    cases r with
    | nil =>
      have hshape : dumpElems [x] ++ rest = dumpVal x ++ (']' :: rest) := by
        simp [dumpElems]
      rw [hshape]
      have hhead : (dumpVal x ++ (']' :: rest)).head? = some c := by
        rw [hdx]; rfl
      have hval := parseVal_dumpVal x f hx (']' :: rest) (by rfl)
      simp [parseElems, hhead, hcne, hval]
    | cons y r₂ =>
      have hr : psizeL (y :: r₂) ≤ f := by
        simp only [psizeL] at hf ⊢
        omega
      have hshape : dumpElems (x :: y :: r₂) ++ rest
          = dumpVal x ++ (',' :: ' ' :: (dumpElems (y :: r₂) ++ rest)) := by
        simp [dumpElems]
      rw [hshape]
      have hhead : (dumpVal x ++ (',' :: ' ' :: (dumpElems (y :: r₂) ++ rest))).head?
          = some c := by
        rw [hdx]; rfl
      have hval := parseVal_dumpVal x f hx (',' :: ' ' :: (dumpElems (y :: r₂) ++ rest))
        (by rfl)
      have helems := parseElems_dumpElems (y :: r₂) f hr rest
      simp [parseElems, hhead, hcne, hval, helems]

theorem parseMembers_dumpMembers (kvs : List (String × PyVal)) :
    ∀ (fuel : Nat), psizeD kvs ≤ fuel → ∀ (rest : List Char),
      parseMembers fuel (dumpMembers kvs ++ rest) = some (kvs, rest) := by
  intro fuel hf rest
  obtain ⟨f, rfl⟩ : ∃ f, fuel = f + 1 := ⟨fuel - 1, by have := psizeD_pos kvs; omega⟩
  cases kvs with
  | nil =>
    simp [dumpMembers, parseMembers]
  | cons e r =>
    obtain ⟨k, v⟩ := e
    have hv : psize v ≤ f := by
      simp only [psizeD] at hf
      omega
    cases r with
    | nil =>
      have hshape : dumpMembers [(k, v)] ++ rest
          = '"' :: (escStr k.data ++ '"' :: (':' :: ' ' :: (dumpVal v ++ (rbrace :: rest)))) := by
        simp [dumpMembers]
      rw [hshape]
      have hstr := parseStrBody_escStr k.data (':' :: ' ' :: (dumpVal v ++ (rbrace :: rest)))
      have hval := parseVal_dumpVal v f hv (rbrace :: rest) (by rfl)
      simp [parseMembers, hstr, hval,
        show ('"' : Char) ≠ rbrace from by decide]
    | cons e₂ r₂ =>
      have hr : psizeD (e₂ :: r₂) ≤ f := by
        simp only [psizeD] at hf ⊢
        obtain ⟨k₂, v₂⟩ := e₂
        simp only [psizeD] at hf ⊢
        omega
      have hshape : dumpMembers ((k, v) :: e₂ :: r₂) ++ rest
          = '"' :: (escStr k.data ++ '"' ::
              (':' :: ' ' :: (dumpVal v ++ (',' :: ' ' :: (dumpMembers (e₂ :: r₂) ++ rest))))) := by
        simp [dumpMembers]
      rw [hshape]
      have hstr := parseStrBody_escStr k.data
        (':' :: ' ' :: (dumpVal v ++ (',' :: ' ' :: (dumpMembers (e₂ :: r₂) ++ rest))))
      have hval := parseVal_dumpVal v f hv
        (',' :: ' ' :: (dumpMembers (e₂ :: r₂) ++ rest)) (by rfl)
      have hmem := parseMembers_dumpMembers (e₂ :: r₂) f hr rest
      simp [parseMembers, hstr, hval, hmem,
        show ('"' : Char) ≠ rbrace from by decide,
        show (',' : Char) ≠ rbrace from by decide]

end

mutual

theorem psize_le_dumpVal (v : PyVal) : psize v ≤ (dumpVal v).length := by
  cases v with
  | null => simp [psize, dumpVal, nullChars]
  | bool b => cases b <;> simp [psize, dumpVal, trueChars, falseChars]
  | int i =>
    have h : intChars i ≠ [] := intChars_ne_nil i
    have : 1 ≤ (intChars i).length := List.length_pos.mpr h
    simp only [psize, dumpVal]
    omega
  | str s => simp [psize, dumpVal]
  | list xs =>
    have h := psizeL_le_dumpElems xs
    simp only [psize, dumpVal, List.length_cons]
    omega
  | dict kvs =>
    have h := psizeD_le_dumpMembers kvs
    simp only [psize, dumpVal, List.length_cons]
    omega

theorem psizeL_le_dumpElems (xs : List PyVal) : psizeL xs ≤ (dumpElems xs).length := by
  cases xs with
  | nil => simp [psizeL, dumpElems]
  | cons x r =>
    have hx := psize_le_dumpVal x
    have hp := psize_pos x
    cases r with
    | nil =>
      simp only [psizeL, dumpElems, List.length_append, List.length_cons,
        List.length_nil]
      omega
    | cons y r₂ =>
      have hr := psizeL_le_dumpElems (y :: r₂)
      simp only [psizeL] at hr ⊢
      simp only [dumpElems, List.length_append, List.length_cons]
      omega

theorem psizeD_le_dumpMembers (kvs : List (String × PyVal)) :
    psizeD kvs ≤ (dumpMembers kvs).length := by
  cases kvs with
  | nil => simp [psizeD, dumpMembers]
  | cons e r =>
    obtain ⟨k, v⟩ := e
    have hv := psize_le_dumpVal v
    have hp := psize_pos v
    cases r with
    | nil =>
      simp only [psizeD, dumpMembers, List.length_append, List.length_cons,
        List.length_nil]
      omega
    | cons e₂ r₂ =>
      have hr := psizeD_le_dumpMembers (e₂ :: r₂)
      simp only [psizeD] at hr ⊢
      simp only [dumpMembers, List.length_append, List.length_cons]
      omega

end

/-- Serialization round-trip law: deserializing a serialized value recovers
it exactly (for every `PyVal`, covering string escapes, nesting, signs). -/
theorem jsonLoads_jsonDumps (v : PyVal) : jsonLoads (jsonDumps v) = some v := by
  have h1 : psize v ≤ (dumpVal v).length + 1 := by
    have := psize_le_dumpVal v
    omega
  have h2 := parseVal_dumpVal v ((dumpVal v).length + 1) h1 [] (by rfl)
  rw [List.append_nil] at h2
  unfold jsonLoads jsonDumps
  simp only [h2]

theorem dumpVal_ne_nil (v : PyVal) : dumpVal v ≠ [] := by
  obtain ⟨c, cs, h, _⟩ := dumpVal_head v
  rw [h]
  exact List.cons_ne_nil c cs

theorem jsonDumps_ne_empty (v : PyVal) : jsonDumps v ≠ "" := by
  intro h
  exact dumpVal_ne_nil v (congrArg String.data h)

theorem sorted_keyNodup_perm_eq :
    ∀ (l₁ l₂ : List (String × PyVal)), List.Sorted kwargsLe l₁ → List.Sorted kwargsLe l₂ →
      l₁.Perm l₂ → (l₁.map Prod.fst).Nodup → l₁ = l₂ := by
  intro l₁
  induction l₁ with
  | nil =>
    intro l₂ _ _ hp _
    exact (List.Perm.eq_nil hp.symm).symm
  | cons a t₁ ih =>
    intro l₂ h₁ h₂ hp hnd
    cases l₂ with
    | nil => exact absurd (List.Perm.eq_nil hp) (by simp)
    | cons b t₂ =>
      by_cases hab : a = b
      · subst hab
        have htp := hp.cons_inv
        have h₁t := (List.sorted_cons.mp h₁).2
        have h₂t := (List.sorted_cons.mp h₂).2
        have hndt : (t₁.map Prod.fst).Nodup := by
          simp only [List.map_cons, List.nodup_cons] at hnd
          exact hnd.2
        rw [ih t₂ h₁t h₂t htp hndt]
      · exfalso
        have hbmem : b ∈ a :: t₁ := hp.mem_iff.mpr (by simp)
        have hamem : a ∈ b :: t₂ := hp.mem_iff.mp (by simp)
        have hbt₁ : b ∈ t₁ := by
          cases List.mem_cons.mp hbmem with
          | inl h => exact absurd h.symm hab
          | inr h => exact h
        have hat₂ : a ∈ t₂ := by
          cases List.mem_cons.mp hamem with
          | inl h => exact absurd h hab
          | inr h => exact h
        have hle₁ : kwargsLe a b := (List.sorted_cons.mp h₁).1 b hbt₁
        have hle₂ : kwargsLe b a := (List.sorted_cons.mp h₂).1 a hat₂
        have hkey : a.1 = b.1 := le_antisymm hle₁ hle₂
        simp only [List.map_cons, List.nodup_cons] at hnd
        apply hnd.1
        rw [hkey]
        exact List.mem_map_of_mem Prod.fst hbt₁

theorem sortItems_congr_perm {l₁ l₂ : List (String × PyVal)} (hp : l₁.Perm l₂)
    (hnd : (l₁.map Prod.fst).Nodup) : sortItems l₁ = sortItems l₂ := by
  apply sorted_keyNodup_perm_eq
  · exact List.sorted_insertionSort kwargsLe l₁
  · exact List.sorted_insertionSort kwargsLe l₂
  · exact (List.perm_insertionSort kwargsLe l₁).trans
      (hp.trans (List.perm_insertionSort kwargsLe l₂).symm)
  · exact (((List.perm_insertionSort kwargsLe l₁).map Prod.fst).nodup_iff).mpr hnd

theorem md5Hex_length (s : String) : (md5Hex s).length = 32 := by
  simp [md5Hex, String.length]

theorem isHexCh_hexDig : ∀ k < 16, isHexCh (hexDig k) = true := by decide

theorem md5Hex_chars (s : String) : ∀ c ∈ (md5Hex s).data, isHexCh c = true := by
  intro c hc
  simp only [md5Hex, List.mem_map, List.mem_range] at hc
  obtain ⟨i, _, rfl⟩ := hc
  exact isHexCh_hexDig _ (Nat.mod_lt _ (by omega))

theorem isNull_false_of_ne {v : PyVal} (h : v ≠ .null) : v.isNull = false := by
  cases v <;> simp_all [PyVal.isNull]

theorem ne_null_of_isNull_false {v : PyVal} (h : v.isNull = false) : v ≠ .null := by
  cases v <;> simp_all [PyVal.isNull]

theorem cacheSet_enabled (st : RedisState) (now : Nat) (key : String) (v : PyVal)
    (ttl : Nat) : (cacheSet st now key v ttl).2.enabled = st.enabled := by
  unfold cacheSet
  by_cases h : st.enabled <;> simp [h]

theorem cacheGet_after_set (st : RedisState) (hen : st.enabled = true)
    (t now : Nat) (key : String) (v : PyVal) (ttl : Nat) (hlt : now < t + ttl) :
    cacheGet (cacheSet st t key v ttl).2 now key = v := by
  unfold cacheSet
  simp only [hen, Bool.not_true, Bool.false_eq_true, if_false]
  unfold cacheGet rawGet rawSetex
  simp only [hen, Bool.not_true, Bool.false_eq_true, if_false]
  rw [List.find?_cons_of_pos _ (by simp)]
  simp only [hlt, if_pos, if_true]
  rw [if_pos (jsonDumps_ne_empty v), jsonLoads_jsonDumps v]
  rfl

theorem cacheGet_after_set_expired (st : RedisState) (hen : st.enabled = true)
    (t now : Nat) (key : String) (v : PyVal) (ttl : Nat) (hge : t + ttl ≤ now) :
    cacheGet (cacheSet st t key v ttl).2 now key = .null := by
  unfold cacheSet
  simp only [hen, Bool.not_true, Bool.false_eq_true, if_false]
  unfold cacheGet rawGet rawSetex
  simp only [hen, Bool.not_true, Bool.false_eq_true, if_false]
  rw [List.find?_cons_of_pos _ (by simp)]
  simp only [show ¬(now < t + ttl) from by omega, if_false]

theorem cacheWrap_miss (ttl : Nat) (keyPref : String)
    (func : List PyVal → List (String × PyVal) → PyVal)
    (st : RedisState) (now : Nat) (args : List PyVal) (kwargs : List (String × PyVal))
    (hen : st.enabled = true)
    (hmiss : cacheGet st now (generateKey keyPref args kwargs) = .null) :
    cacheWrap ttl keyPref func true st now args kwargs =
      ⟨func args kwargs,
        (cacheSet st now (generateKey keyPref args kwargs) (func args kwargs) ttl).2,
        true⟩ := by
  unfold cacheWrap
  simp [hen, hmiss, PyVal.isNull]

theorem cacheWrap_hit (ttl : Nat) (keyPref : String)
    (func : List PyVal → List (String × PyVal) → PyVal)
    (st : RedisState) (now : Nat) (args : List PyVal) (kwargs : List (String × PyVal))
    (v : PyVal) (hen : st.enabled = true)
    (hget : cacheGet st now (generateKey keyPref args kwargs) = v)
    (hv : v.isNull = false) :
    cacheWrap ttl keyPref func true st now args kwargs = ⟨v, st, false⟩ := by
  unfold cacheWrap
  simp [hen, hget, hv]

theorem cacheWrap_twice (ttl : Nat) (keyPref : String)
    (func : List PyVal → List (String × PyVal) → PyVal)
    (st : RedisState) (t₁ t₂ : Nat) (args : List PyVal) (kwargs : List (String × PyVal))
    (hen : st.enabled = true)
    (hmiss : cacheGet st t₁ (generateKey keyPref args kwargs) = .null)
    (hres : func args kwargs ≠ .null) :
    (cacheWrap ttl keyPref func true st t₁ args kwargs).executed = true ∧
    (cacheWrap ttl keyPref func true st t₁ args kwargs).value = func args kwargs ∧
    (t₂ < t₁ + ttl →
      (cacheWrap ttl keyPref func true
          (cacheWrap ttl keyPref func true st t₁ args kwargs).state t₂ args kwargs)
        = ⟨func args kwargs, (cacheWrap ttl keyPref func true st t₁ args kwargs).state,
            false⟩) ∧
    (t₁ + ttl ≤ t₂ →
      (cacheWrap ttl keyPref func true
          (cacheWrap ttl keyPref func true st t₁ args kwargs).state t₂ args kwargs).executed
        = true) := by
  have h₁ := cacheWrap_miss ttl keyPref func st t₁ args kwargs hen hmiss
  have hen' : (cacheWrap ttl keyPref func true st t₁ args kwargs).state.enabled = true := by
    rw [h₁]
    simp [cacheSet_enabled, hen]
  refine ⟨by rw [h₁], by rw [h₁], ?_, ?_⟩
  · intro hwin
    have hget : cacheGet (cacheWrap ttl keyPref func true st t₁ args kwargs).state t₂
        (generateKey keyPref args kwargs) = func args kwargs := by
      rw [h₁]
      exact cacheGet_after_set st hen t₁ t₂ _ _ ttl hwin
    exact cacheWrap_hit ttl keyPref func _ t₂ args kwargs _ hen' hget
      (isNull_false_of_ne hres)
  · intro hexp
    have hget : cacheGet (cacheWrap ttl keyPref func true st t₁ args kwargs).state t₂
        (generateKey keyPref args kwargs) = .null := by
      rw [h₁]
      exact cacheGet_after_set_expired st hen t₁ t₂ _ _ ttl hexp
    rw [cacheWrap_miss ttl keyPref func _ t₂ args kwargs hen' hget]

theorem wrapped_op_profile (ttl : Nat) (keyPref : String)
    (impl : List PyVal → List (String × PyVal) → PyVal)
    (st : RedisState) (t₁ t₂ : Nat) (args : List PyVal)
    (hen : st.enabled = true)
    (hmiss : cacheGet st t₁ (generateKey keyPref args []) = .null)
    (hres : impl args [] ≠ .null) :
    (cacheWrap ttl keyPref impl true st t₁ args []).executed = true ∧
    (t₂ < t₁ + ttl →
      (cacheWrap ttl keyPref impl true
          (cacheWrap ttl keyPref impl true st t₁ args []).state t₂ args []).executed
        = false ∧
      (cacheWrap ttl keyPref impl true
          (cacheWrap ttl keyPref impl true st t₁ args []).state t₂ args []).value
        = (cacheWrap ttl keyPref impl true st t₁ args []).value) ∧
    (t₁ + ttl ≤ t₂ →
      (cacheWrap ttl keyPref impl true
          (cacheWrap ttl keyPref impl true st t₁ args []).state t₂ args []).executed
        = true) := by
  obtain ⟨h1, h2, h3, h4⟩ :=
    cacheWrap_twice ttl keyPref impl st t₁ t₂ args [] hen hmiss hres
  refine ⟨h1, fun hw => ?_, h4⟩
  rw [h3 hw, h2]
  exact ⟨rfl, rfl⟩

/-- Claim C1 as stated is false on the code: for a wrapped operation that
returns Python None, two identical calls within the TTL window (enabled
cache, fresh key) both execute the underlying operation — the wrapper
treats the deserialized None exactly like a cache miss, so memoization
never takes effect for None results. -/
theorem C1_counterexample_none_result :
    (cacheWrap 60 "query" (fun _ _ => .null) true ⟨true, []⟩ 0 [] []).executed = true ∧
    (cacheWrap 60 "query" (fun _ _ => .null) true
        (cacheWrap 60 "query" (fun _ _ => .null) true ⟨true, []⟩ 0 [] []).state
        1 [] []).executed = true :=
  ⟨rfl, rfl⟩

/-- Claim C1 (amended): for every operation wrapped by the memoizing
decorator with an attached enabled cache, if the first call misses the
cache (no live entry under the derived key) and the operation's result is
not the Python None sentinel, then calling the wrapped operation twice
with identical arguments within the TTL window executes the underlying
operation exactly once — the first call executes, the second does not —
and both calls return the same result. -/
theorem C1_memoize_single_execution (ttl : Nat) (keyPref : String)
    (func : List PyVal → List (String × PyVal) → PyVal)
    (st : RedisState) (t₁ t₂ : Nat) (args : List PyVal)
    (kwargs : List (String × PyVal))
    (hen : st.enabled = true)
    (hmiss : cacheGet st t₁ (generateKey keyPref args kwargs) = .null)
    (hres : func args kwargs ≠ .null)
    (hwin : t₂ < t₁ + ttl) :
    (cacheWrap ttl keyPref func true st t₁ args kwargs).executed = true ∧
    (cacheWrap ttl keyPref func true
        (cacheWrap ttl keyPref func true st t₁ args kwargs).state t₂ args kwargs).executed
      = false ∧
    (cacheWrap ttl keyPref func true st t₁ args kwargs).value = func args kwargs ∧
    (cacheWrap ttl keyPref func true
        (cacheWrap ttl keyPref func true st t₁ args kwargs).state t₂ args kwargs).value
      = (cacheWrap ttl keyPref func true st t₁ args kwargs).value := by
  obtain ⟨h1, h2, h3, _⟩ :=
    cacheWrap_twice ttl keyPref func st t₁ t₂ args kwargs hen hmiss hres
  refine ⟨h1, ?_, h2, ?_⟩
  · rw [h3 hwin]
  · rw [h3 hwin, h2]

/-- Claim C1 witness at a concrete instance. -/
theorem C1_memoize_single_execution_witness :
    (cacheWrap 60 "query" (fun _ _ => .str "ok") true ⟨true, []⟩ 0 [] []).executed = true ∧
    (cacheWrap 60 "query" (fun _ _ => .str "ok") true
        (cacheWrap 60 "query" (fun _ _ => .str "ok") true ⟨true, []⟩ 0 [] []).state
        1 [] []).executed = false ∧
    (cacheWrap 60 "query" (fun _ _ => .str "ok") true ⟨true, []⟩ 0 [] []).value
      = .str "ok" ∧
    (cacheWrap 60 "query" (fun _ _ => .str "ok") true
        (cacheWrap 60 "query" (fun _ _ => .str "ok") true ⟨true, []⟩ 0 [] []).state
        1 [] []).value
      = (cacheWrap 60 "query" (fun _ _ => .str "ok") true ⟨true, []⟩ 0 [] []).value :=
  C1_memoize_single_execution 60 "query" (fun _ _ => .str "ok") ⟨true, []⟩ 0 1 [] []
    rfl rfl (by simp) (by omega)

/-- Claim C2: when the store is enabled (and the backend stats query
succeeds, the error-free case of the model), `get_stats` reports a hit
rate equal to `hits / max(hits + misses, 1) * 100` rounded to two
decimals, and the reported hit rate is 0 when no hits or misses have been
recorded. -/
theorem C2_hit_rate_arithmetic (st : RedisState) (now : Nat) (info : RedisInfo)
    (hen : st.enabled = true) :
    (getStats st now info).hitRate
      = round2 ((info.keyspace_hits : ℚ)
          / ((max (info.keyspace_hits + info.keyspace_misses) 1 : Nat) : ℚ) * 100) ∧
    (info.keyspace_hits + info.keyspace_misses = 0 →
      (getStats st now info).hitRate = 0) := by
  constructor
  · simp [getStats, hen, CacheStats.hitRate]
  · intro h0
    have hh : info.keyspace_hits = 0 := by omega
    simp [getStats, hen, CacheStats.hitRate, hh, round2]

/-- Claim C2 witness at a concrete instance (3 hits, 1 miss, and the
zero-traffic case). -/
theorem C2_hit_rate_arithmetic_witness :
    (getStats ⟨true, []⟩ 0 ⟨3, 1, "1M"⟩).hitRate
      = round2 ((3 : ℚ) / ((max (3 + 1) 1 : Nat) : ℚ) * 100) ∧
    (getStats ⟨true, []⟩ 0 ⟨0, 0, "1M"⟩).hitRate = 0 :=
  ⟨(C2_hit_rate_arithmetic ⟨true, []⟩ 0 ⟨3, 1, "1M"⟩ rfl).1,
    (C2_hit_rate_arithmetic ⟨true, []⟩ 0 ⟨0, 0, "1M"⟩ rfl).2 rfl⟩

/-- Claim C3: whenever the store's get returns a present (non-None) value
under the derived key — including falsy-but-present values such as the
empty string — the memoized operation returns exactly that cached value
and does not execute the underlying operation. -/
theorem C3_present_value_short_circuits (ttl : Nat) (keyPref : String)
    (func : List PyVal → List (String × PyVal) → PyVal)
    (st : RedisState) (now : Nat) (args : List PyVal)
    (kwargs : List (String × PyVal)) (v : PyVal)
    (hen : st.enabled = true)
    (hget : cacheGet st now (generateKey keyPref args kwargs) = v)
    (hv : v ≠ .null) :
    (cacheWrap ttl keyPref func true st now args kwargs).value = v ∧
    (cacheWrap ttl keyPref func true st now args kwargs).executed = false := by
  rw [cacheWrap_hit ttl keyPref func st now args kwargs v hen hget
    (isNull_false_of_ne hv)]
  exact ⟨rfl, rfl⟩

/-- Claim C3 witness: a cached empty string is returned without executing
the underlying operation. -/
theorem C3_present_value_short_circuits_witness :
    (cacheWrap 60 "query" (fun _ _ => .str "fresh") true
        ⟨true, [(generateKey "query" [] [], jsonDumps (.str ""), 5)]⟩ 0 [] []).value
      = .str "" ∧
    (cacheWrap 60 "query" (fun _ _ => .str "fresh") true
        ⟨true, [(generateKey "query" [] [], jsonDumps (.str ""), 5)]⟩ 0 [] []).executed
      = false :=
  C3_present_value_short_circuits 60 "query" (fun _ _ => .str "fresh")
    ⟨true, [(generateKey "query" [] [], jsonDumps (.str ""), 5)]⟩ 0 [] [] (.str "")
    rfl rfl (by simp)

/-- Claim C4: key generation is deterministic — equal prefix, equal
positional arguments and equal keyword-argument sets (supplied in any
insertion order, keys being distinct) yield the identical key — and every
key has the form `movie_cache:<prefix>:<digest>` with a fixed-length
32-hex-character (128-bit) digest. -/
theorem C4_key_determinism_and_format (pref : String) (args : List PyVal)
    (kw₁ kw₂ : List (String × PyVal)) (hperm : kw₁.Perm kw₂)
    (hnd : (kw₁.map Prod.fst).Nodup) :
    generateKey pref args kw₁ = generateKey pref args kw₂ ∧
    ∃ digest : String,
      generateKey pref args kw₁ = "movie_cache:" ++ pref ++ ":" ++ digest ∧
      digest.length = 32 ∧ ∀ c ∈ digest.data, isHexCh c = true := by
  constructor
  · unfold generateKey
    rw [sortItems_congr_perm hperm hnd]
  · exact ⟨md5Hex _, rfl, md5Hex_length _, md5Hex_chars _⟩

/-- Claim C4 witness: swapping the insertion order of two distinct
keyword arguments leaves the generated key unchanged. -/
theorem C4_key_determinism_and_format_witness :
    generateKey "query" [.str "t"] [(("b" : String), PyVal.int 1), (("a" : String), PyVal.str "x")]
      = generateKey "query" [.str "t"] [(("a" : String), PyVal.str "x"), (("b" : String), PyVal.int 1)] :=
  (C4_key_determinism_and_format "query" [.str "t"] _ _
    (List.Perm.swap _ _ _) (by decide)).1

/-- Claim C5: on a disabled store (construction against an unreachable
endpoint failed the connection probe), get returns the absent sentinel,
set reports failure, clear_pattern reports 0 deletions, none of them
touches the state, and — being total functions of the model — none
raises. -/
theorem C5_fail_open_disabled (st : RedisState) (hdis : st.enabled = false)
    (now : Nat) (key : String) (v : PyVal) (ttl : Nat) (pattern : String) :
    cacheGet st now key = .null ∧
    cacheSet st now key v ttl = (false, st) ∧
    clearPattern st now pattern = (0, st) := by
  unfold cacheGet cacheSet clearPattern
  simp [hdis]

/-- Claim C5 witness at a concrete disabled store. -/
theorem C5_fail_open_disabled_witness :
    cacheGet ⟨false, []⟩ 0 "movie_cache:query:k" = .null ∧
    cacheSet ⟨false, []⟩ 0 "movie_cache:query:k" (.str "v") 60 = (false, ⟨false, []⟩) ∧
    clearPattern ⟨false, []⟩ 0 "movie_cache:*" = (0, ⟨false, []⟩) :=
  C5_fail_open_disabled ⟨false, []⟩ rfl 0 "movie_cache:query:k" (.str "v") 60
    "movie_cache:*"

/-- Claim C7: with an enabled store and no transport error (the model's
error-free case), set succeeds and an immediate get — any read strictly
inside the TTL window — returns a value equal to the one stored, for
every JSON-serializable value: serialization round-trips. -/
theorem C7_set_get_round_trip (st : RedisState) (k : String) (v : PyVal)
    (ttl t now : Nat) (hen : st.enabled = true) (hwin : now < t + ttl) :
    (cacheSet st t k v ttl).1 = true ∧
    cacheGet (cacheSet st t k v ttl).2 now k = v := by
  constructor
  · unfold cacheSet
    simp [hen]
  · exact cacheGet_after_set st hen t now k v ttl hwin

/-- Claim C7 witness: the example value round-trips immediately. -/
theorem C7_set_get_round_trip_witness :
    (cacheSet ⟨true, []⟩ 0 "k" (.dict [("movie", .str "The Matrix"), ("year", .int 1999)]) 60).1
      = true ∧
    cacheGet (cacheSet ⟨true, []⟩ 0 "k"
        (.dict [("movie", .str "The Matrix"), ("year", .int 1999)]) 60).2 0 "k"
      = .dict [("movie", .str "The Matrix"), ("year", .int 1999)] :=
  C7_set_get_round_trip ⟨true, []⟩ "k"
    (.dict [("movie", .str "The Matrix"), ("year", .int 1999)]) 60 0 0 rfl (by omega)

/-- Claim C8: with an enabled store, a live entry whose raw value cannot
be deserialized is reported exactly like a missing key — the absent
sentinel — and (being a total function of the model) no error is raised
or surfaced. -/
theorem C8_corrupt_entry_is_miss (st : RedisState) (now : Nat) (key raw : String)
    (exp : Nat) (hen : st.enabled = true)
    (hlook : st.store.find? (fun e => e.1 == key) = some (key, raw, exp))
    (hlive : now < exp) (hraw : raw ≠ "") (hbad : jsonLoads raw = none) :
    cacheGet st now key = .null ∧
    (∀ k₂, st.store.find? (fun e => e.1 == k₂) = none → cacheGet st now k₂ = .null) := by
  constructor
  · unfold cacheGet rawGet
    rw [hlook]
    simp [hen, hlive, hraw, hbad]
  · intro k₂ h
    unfold cacheGet rawGet
    rw [h]
    simp [hen]

/-- Claim C8 witness: the undecodable raw entry `xyz` reads as absent. -/
theorem C8_corrupt_entry_is_miss_witness :
    cacheGet ⟨true, [("k", "xyz", 10)]⟩ 0 "k" = .null :=
  (C8_corrupt_entry_is_miss ⟨true, [("k", "xyz", 10)]⟩ 0 "k" "xyz" 10
    rfl rfl (by omega) (by simp) rfl).1

/-- Claim C9: on a cache hit the memoizing wrapper returns the cached
value with the store state unchanged — set is not invoked and the entry's
remaining TTL is not refreshed — while on a miss the wrapper executes the
operation and only then invokes set on the result. -/
theorem C9_hit_frame_effect (ttl : Nat) (keyPref : String)
    (func : List PyVal → List (String × PyVal) → PyVal)
    (st : RedisState) (now : Nat) (args : List PyVal)
    (kwargs : List (String × PyVal)) (hen : st.enabled = true) :
    (∀ v, cacheGet st now (generateKey keyPref args kwargs) = v → v ≠ .null →
      cacheWrap ttl keyPref func true st now args kwargs = ⟨v, st, false⟩) ∧
    (cacheGet st now (generateKey keyPref args kwargs) = .null →
      cacheWrap ttl keyPref func true st now args kwargs
        = ⟨func args kwargs,
            (cacheSet st now (generateKey keyPref args kwargs) (func args kwargs) ttl).2,
            true⟩) := by
  constructor
  · intro v hget hv
    exact cacheWrap_hit ttl keyPref func st now args kwargs v hen hget
      (isNull_false_of_ne hv)
  · intro hmiss
    exact cacheWrap_miss ttl keyPref func st now args kwargs hen hmiss

/-- Claim C9 witness: a hit leaves the stored entry and its expiry
untouched. -/
theorem C9_hit_frame_effect_witness :
    cacheWrap 60 "query" (fun _ _ => .str "fresh") true
        ⟨true, [(generateKey "query" [] [], jsonDumps (.str "old"), 7)]⟩ 0 [] []
      = ⟨.str "old", ⟨true, [(generateKey "query" [] [], jsonDumps (.str "old"), 7)]⟩,
          false⟩ :=
  (C9_hit_frame_effect 60 "query" (fun _ _ => .str "fresh")
    ⟨true, [(generateKey "query" [] [], jsonDumps (.str "old"), 7)]⟩ 0 [] [] rfl).1
    (.str "old") rfl (by simp)

/-- Claim C10: delete reports success whenever the store is enabled —
whether or not the key had an entry — and reports failure exactly when
the store is disabled. -/
theorem C10_delete_flag (st : RedisState) (key : String) :
    (st.enabled = true → (cacheDelete st key).1 = true) ∧
    (st.enabled = false → (cacheDelete st key).1 = false) := by
  unfold cacheDelete
  constructor <;> intro h <;> simp [h]

/-- Claim C10 witness: success on an enabled store without the key,
failure on a disabled store. -/
theorem C10_delete_flag_witness :
    (cacheDelete ⟨true, [("other", "1", 5)]⟩ "absent").1 = true ∧
    (cacheDelete ⟨false, []⟩ "absent").1 = false :=
  ⟨(C10_delete_flag ⟨true, [("other", "1", 5)]⟩ "absent").1 rfl,
    (C10_delete_flag ⟨false, []⟩ "absent").2 rfl⟩

/-- Claim C6: the decorated query methods are memoized with their source
TTLs — title search 1800 s; director, genre, top-rated and actor lookups
3600 s — shown by a second identical call strictly inside that window not
executing the query body while a call at or past the window does; the
year-range and statistics queries are not memoized: every call executes
the query body and leaves the store untouched. -/
theorem C6_ttl_profile (impl : List PyVal → List (String × PyVal) → PyVal)
    (st : RedisState) (t₁ t₂ : Nat) (hen : st.enabled = true) :
    (∀ title : String,
      cacheGet st t₁ (generateKey "search_title" [.str title] []) = .null →
      impl [.str title] [] ≠ .null →
      (search_movies_by_title impl st t₁ title).executed = true ∧
      (t₂ < t₁ + 1800 →
        (search_movies_by_title impl (search_movies_by_title impl st t₁ title).state
          t₂ title).executed = false) ∧
      (t₁ + 1800 ≤ t₂ →
        (search_movies_by_title impl (search_movies_by_title impl st t₁ title).state
          t₂ title).executed = true)) ∧
    (∀ director : String,
      cacheGet st t₁ (generateKey "director" [.str director] []) = .null →
      impl [.str director] [] ≠ .null →
      (get_movies_by_director impl st t₁ director).executed = true ∧
      (t₂ < t₁ + 3600 →
        (get_movies_by_director impl (get_movies_by_director impl st t₁ director).state
          t₂ director).executed = false) ∧
      (t₁ + 3600 ≤ t₂ →
        (get_movies_by_director impl (get_movies_by_director impl st t₁ director).state
          t₂ director).executed = true)) ∧
    (∀ limit : Int,
      cacheGet st t₁ (generateKey "top_rated" [.int limit] []) = .null →
      impl [.int limit] [] ≠ .null →
      (get_top_rated_movies impl st t₁ limit).executed = true ∧
      (t₂ < t₁ + 3600 →
        (get_top_rated_movies impl (get_top_rated_movies impl st t₁ limit).state
          t₂ limit).executed = false) ∧
      (t₁ + 3600 ≤ t₂ →
        (get_top_rated_movies impl (get_top_rated_movies impl st t₁ limit).state
          t₂ limit).executed = true)) ∧
    (∀ genre : String,
      cacheGet st t₁ (generateKey "genre" [.str genre] []) = .null →
      impl [.str genre] [] ≠ .null →
      (get_movies_by_genre impl st t₁ genre).executed = true ∧
      (t₂ < t₁ + 3600 →
        (get_movies_by_genre impl (get_movies_by_genre impl st t₁ genre).state
          t₂ genre).executed = false) ∧
      (t₁ + 3600 ≤ t₂ →
        (get_movies_by_genre impl (get_movies_by_genre impl st t₁ genre).state
          t₂ genre).executed = true)) ∧
    (∀ actor : String,
      cacheGet st t₁ (generateKey "actor" [.str actor] []) = .null →
      impl [.str actor] [] ≠ .null →
      (get_movies_with_actor impl st t₁ actor).executed = true ∧
      (t₂ < t₁ + 3600 →
        (get_movies_with_actor impl (get_movies_with_actor impl st t₁ actor).state
          t₂ actor).executed = false) ∧
      (t₁ + 3600 ≤ t₂ →
        (get_movies_with_actor impl (get_movies_with_actor impl st t₁ actor).state
          t₂ actor).executed = true)) ∧
    (∀ start_year end_year : Int,
      (get_movies_by_year_range impl st t₁ start_year end_year).executed = true ∧
      (get_movies_by_year_range impl st t₁ start_year end_year).state = st) ∧
    (∀ query : String,
      (get_movie_statistics impl st t₁ query).executed = true ∧
      (get_movie_statistics impl st t₁ query).state = st) := by
  refine ⟨?_, ?_, ?_, ?_, ?_, ?_, ?_⟩
  · intro title hmiss hres
    obtain ⟨h1, h2, h3⟩ :=
      wrapped_op_profile 1800 "search_title" impl st t₁ t₂ [.str title] hen hmiss hres
    exact ⟨h1, fun hw => (h2 hw).1, h3⟩
  · intro director hmiss hres
    obtain ⟨h1, h2, h3⟩ :=
      wrapped_op_profile 3600 "director" impl st t₁ t₂ [.str director] hen hmiss hres
    exact ⟨h1, fun hw => (h2 hw).1, h3⟩
  · intro limit hmiss hres
    obtain ⟨h1, h2, h3⟩ :=
      wrapped_op_profile 3600 "top_rated" impl st t₁ t₂ [.int limit] hen hmiss hres
    exact ⟨h1, fun hw => (h2 hw).1, h3⟩
  · intro genre hmiss hres
    obtain ⟨h1, h2, h3⟩ :=
      wrapped_op_profile 3600 "genre" impl st t₁ t₂ [.str genre] hen hmiss hres
    exact ⟨h1, fun hw => (h2 hw).1, h3⟩
  · intro actor hmiss hres
    obtain ⟨h1, h2, h3⟩ :=
      wrapped_op_profile 3600 "actor" impl st t₁ t₂ [.str actor] hen hmiss hres
    exact ⟨h1, fun hw => (h2 hw).1, h3⟩
  · exact fun _ _ => ⟨rfl, rfl⟩
  · exact fun _ => ⟨rfl, rfl⟩

/-- Claim C6 witness: a title search executes on a fresh store, and a
year-range query always executes. -/
theorem C6_ttl_profile_witness :
    (search_movies_by_title (fun _ _ => .str "r") ⟨true, []⟩ 0 "batman").executed
      = true ∧
    (get_movies_by_year_range (fun _ _ => .str "r") ⟨true, []⟩ 0 1990 2000).executed
      = true :=
  ⟨((C6_ttl_profile (fun _ _ => .str "r") ⟨true, []⟩ 0 5 rfl).1 "batman" rfl
      (by simp)).1,
    ((C6_ttl_profile (fun _ _ => .str "r") ⟨true, []⟩ 0 5 rfl).2.2.2.2.2.1 1990 2000).1⟩
